import Mathlib

/-!
Verification of the message transfer engine of imap_move.py against its
natural-language specification.

The script is a single module-level program.  We embed the part that the
specification calls the core: the transfer loop (lines 264-284), the tally
report and trash purge (lines 285-288), and the teardown routine cleanup
(lines 162-182) registered via atexit/signal (lines 227-228).  Startup
(argument parsing, configuration, connect/login/select, lines 196-263) is
outside the claims and is taken as already done: the model starts from a
state in which both sessions have selected their working folders.

Mailbox servers are modelled explicitly: a folder is a list of messages,
each carrying its raw content (abstract), its IMAP flag list and its
INTERNALDATE instant.  Server responses that the script branches on
(fetch failures, the append response type, the trash select response) are
an input of the model, so every reachable control path of the script is a
value of the model.  imaplib behaviour that the script relies on is
modelled from the imaplib source/documentation and noted where it occurs.
-/

namespace ImapMove

/-- The first component of an imaplib command result pair: the server
response type, OK or NO (line 281 compares it with the text OK). -/
inductive Typ where
  | ok : Typ
  | no : Typ
deriving DecidableEq

/-- One message held in a mailbox folder: abstract raw content, IMAP flag
list, and the INTERNALDATE instant in epoch seconds. -/
structure Msg where
  content : Nat
  flags : List String
  idate : Int
deriving DecidableEq

/-- The source server: its working folder (the one selected at line 261)
and its trash folder (selected at line 286). -/
structure SourceServer where
  working : List Msg
  trash : List Msg
deriving DecidableEq

/-- Which folder of the source server a session has selected. -/
inductive SrcFolder where
  | working : SrcFolder
  | trash : SrcFolder
deriving DecidableEq

/-- Server responses for one run, the inputs the script branches on:
whether the fetch of a given sequence number fails (either imaplib raises
or the server answers NO, in which case line 270 raises a TypeError on
data[0][1]), the response type of the append of a given sequence number
(line 279), and the response types of the trash select (line 286) and of
the store on 1:* in the trash (line 287). -/
structure Env where
  fetchFails : Nat → Bool
  appendTyp : Nat → Typ
  trashSelectTyp : Typ
  trashStoreTyp : Typ

/-- Protocol commands the script issues, in order, as observed on the two
sessions.  storeDel is the store of +FLAGS Deleted on one sequence number
of the working folder (line 283); storeTrashAll is the store on 1:* in the
trash folder (line 287); report is the tally log line (line 285). -/
inductive Event where
  | fetch : Nat → Event
  | append : Nat → Typ → Event
  | storeDel : Nat → Event
  | report : Nat → Event
  | selectTrash : Typ → Event
  | storeTrashAll : Typ → Event
  | srcExpunge : SrcFolder → Event
  | srcClose : Event
  | srcLogout : Event
  | tgtExpunge : Event
  | tgtClose : Event
  | tgtLogout : Event
deriving DecidableEq

/-- How the process ends: sys.exit(0) (line 288) or an unhandled
exception propagating out of the module-level code. -/
inductive ExitKind where
  | normal : ExitKind
  | crashed : ExitKind
deriving DecidableEq

/-- Mutable state during the transfer loop. -/
structure RunState where
  working : List Msg
  trash : List Msg
  target : List Msg
  count : Nat
  trace : List Event
deriving DecidableEq

/-- Final outcome of one run, after the atexit cleanup has executed. -/
structure RunOut where
  src : SourceServer
  target : List Msg
  count : Nat
  trace : List Event
  srcSelAtExit : Option SrcFolder
  exit : ExitKind
deriving DecidableEq

/-- The fetch item list of line 269, verbatim. -/
def FETCH_ITEMS : String := "(FLAGS INTERNALDATE BODY.PEEK[])"

/-- Whether pat occurs as a contiguous sublist of the second argument. -/
def containsSub (pat : List Char) : List Char → Bool
  | [] => pat.isPrefixOf []
  | c :: cs => pat.isPrefixOf (c :: cs) || containsSub pat cs

/-- Whether a fetch item list requests the body through BODY.PEEK.
RFC 3501: a fetch of BODY[...] implicitly sets the Seen flag, a fetch of
BODY.PEEK[...] does not. -/
def usesPeek (items : String) : Bool :=
  containsSub "BODY.PEEK[".toList items.toList

/-- Server effect of store +FLAGS: add one flag to a message (a flag
already present is kept once). -/
def addFlag (f : String) (m : Msg) : Msg :=
  if f ∈ m.flags then m else { m with flags := m.flags ++ [f] }

/-- Server-side flag effect of fetching one message with the given item
list: without PEEK the Seen flag is implicitly set, with PEEK the message
is untouched (RFC 3501 fetch semantics). -/
def fetchFlagEffect (items : String) (m : Msg) : Msg :=
  if usesPeek items then m else addFlag "\\Seen" m

/-- Apply a function to the element at one position of a list, leaving
every other element in place. -/
def modifyIdx (g : Msg → Msg) : Nat → List Msg → List Msg
  | _, [] => []
  | 0, m :: ms => g m :: ms
  | n + 1, m :: ms => m :: modifyIdx g n ms

/-- Server effect of expunge: permanently remove every message of the
selected folder that carries the Deleted flag (RFC 3501). -/
def expungeFolder (l : List Msg) : List Msg :=
  l.filter (fun m => !(m.flags.contains "\\Deleted"))

/-- One iteration of the transfer loop (lines 267-283) on sequence number
i.  The fetch (line 269) uses FETCH_ITEMS, so its server-side flag effect
is fetchFlagEffect FETCH_ITEMS.  On a fetch failure the loop body raises
(there is no try/except in the script) and the run aborts: the Bool
result is true.  Otherwise the record is appended to the target
(line 279); only when the response type is OK are the tally incremented
(line 282) and the source copy delete-marked (line 283). -/
def doMsg (env : Env) (i : Nat) (st : RunState) : RunState × Bool :=
  if env.fetchFails i then
    ({ st with trace := st.trace ++ [Event.fetch i] }, true)
  else
    let w := modifyIdx (fetchFlagEffect FETCH_ITEMS) (i - 1) st.working
    match env.appendTyp i with
    | Typ.no =>
      ({ st with working := w,
                 trace := st.trace ++ [Event.fetch i, Event.append i Typ.no] }, false)
    | Typ.ok =>
      let rcd := (w[i - 1]?).getD ⟨0, [], 0⟩
      ({ st with working := modifyIdx (addFlag "\\Deleted") (i - 1) w,
                 target := st.target ++ [rcd],
                 count := st.count + 1,
                 trace := st.trace ++ [Event.fetch i, Event.append i Typ.ok,
                                       Event.storeDel i] }, false)

/-- The whole transfer loop over a list of sequence numbers; the Bool
result records whether the run aborted with an unhandled exception. -/
def runLoop (env : Env) : List Nat → RunState → RunState × Bool
  | [], st => (st, false)
  | i :: rest, st =>
    match doMsg env i st with
    | (st1, true) => (st1, true)
    | (st1, false) => runLoop env rest st1

/-- The sequence numbers returned by search ALL on the working folder
(line 264): 1 up to the number of messages currently in it. -/
def searchIds (srv : SourceServer) : List Nat :=
  List.range' 1 srv.working.length

/-- The atexit/SIGINT teardown (cleanup, lines 162-182) as it runs at the
end of a run in which both sessions were opened and selected: for each
session in the SELECTED state, expunge the currently selected folder,
close, logout (imaplib: expunge removes the Deleted-flagged messages of
the selected folder only).  srcSel is the folder the source session has
selected, none when the source session is no longer in the SELECTED state
(imaplib select sets the state to AUTH when the select fails). -/
def cleanupEnd (ek : ExitKind) (srcSel : Option SrcFolder) (st : RunState) : RunOut :=
  let st1 :=
    match srcSel with
    | some SrcFolder.working =>
      { st with working := expungeFolder st.working,
                trace := st.trace ++ [Event.srcExpunge SrcFolder.working,
                                      Event.srcClose, Event.srcLogout] }
    | some SrcFolder.trash =>
      { st with trash := expungeFolder st.trash,
                trace := st.trace ++ [Event.srcExpunge SrcFolder.trash,
                                      Event.srcClose, Event.srcLogout] }
    | none => st
  let st2 := { st1 with target := expungeFolder st1.target,
                        trace := st1.trace ++ [Event.tgtExpunge, Event.tgtClose,
                                               Event.tgtLogout] }
  ⟨⟨st2.working, st2.trash⟩, st2.target, st2.count, st2.trace, srcSel, ek⟩

/-- One full run of the script from line 264 (search) to process exit,
including the atexit cleanup.  When the loop aborts, the source session
still has the working folder selected, the unhandled exception triggers
the atexit handler, and the process exits abnormally.  When the loop
completes, the tally is logged (line 285) and the trash folder selected
(line 286): if that select answers NO, imaplib puts the session in the
AUTH state and the store of line 287 raises (store is illegal in AUTH),
so the run crashes with no source expunge; if it answers OK, the store on
1:* delete-marks every trash message (when the store itself answers OK)
and the script reaches sys.exit(0) with the trash folder selected. -/
def fullRun (env : Env) (srv : SourceServer) : RunOut :=
  let st0 : RunState := ⟨srv.working, srv.trash, [], 0, []⟩
  match runLoop env (searchIds srv) st0 with
  | (st, true) => cleanupEnd ExitKind.crashed (some SrcFolder.working) st
  | (st, false) =>
    let st := { st with trace := st.trace ++ [Event.report st.count] }
    match env.trashSelectTyp with
    | Typ.no =>
      let st := { st with trace := st.trace ++ [Event.selectTrash Typ.no] }
      cleanupEnd ExitKind.crashed none st
    | Typ.ok =>
      let st := { st with trace := st.trace ++ [Event.selectTrash Typ.ok] }
      let st :=
        match env.trashStoreTyp with
        | Typ.ok =>
          { st with trash := st.trash.map (addFlag "\\Deleted"),
                    trace := st.trace ++ [Event.storeTrashAll Typ.ok] }
        | Typ.no =>
          { st with trace := st.trace ++ [Event.storeTrashAll Typ.no] }
      cleanupEnd ExitKind.normal (some SrcFolder.trash) st

/-- C9: the fetch of line 269 requests FLAGS, INTERNALDATE and the body
through BODY.PEEK[], so by RFC 3501 fetch semantics it changes no flag of
the fetched message: the server-side effect of the script's fetch on the
message is the identity (in particular the message is not implicitly
marked Seen). -/
theorem fetch_is_side_effect_free (m : Msg) :
    fetchFlagEffect FETCH_ITEMS m = m := rfl

/-! Basic lemmas about the model's list operations. -/

theorem modifyIdx_length (g : Msg → Msg) (n : Nat) (l : List Msg) :
    (modifyIdx g n l).length = l.length := by
  induction l generalizing n with
  | nil => cases n <;> rfl
  | cons m ms ih =>
    cases n with
    | zero => rfl
    | succ k => simp [modifyIdx, ih]

theorem modifyIdx_id (g : Msg → Msg) (hg : ∀ m, g m = m) (n : Nat) (l : List Msg) :
    modifyIdx g n l = l := by
  induction l generalizing n with
  | nil => cases n <;> rfl
  | cons m ms ih =>
    cases n with
    | zero => simp [modifyIdx, hg m]
    | succ k => simp [modifyIdx, ih]

theorem modifyIdx_getElem_self (g : Msg → Msg) (n : Nat) (l : List Msg) :
    (modifyIdx g n l)[n]? = (l[n]?).map g := by
  induction l generalizing n with
  | nil => cases n <;> simp [modifyIdx]
  | cons m ms ih =>
    cases n with
    | zero => simp [modifyIdx]
    | succ k => simp [modifyIdx, ih]

theorem modifyIdx_getElem_ne (g : Msg → Msg) {k n : Nat} (hkn : k ≠ n) (l : List Msg) :
    (modifyIdx g n l)[k]? = l[k]? := by
  induction l generalizing n k with
  | nil => cases n <;> simp [modifyIdx]
  | cons m ms ih =>
    cases n with
    | zero =>
      cases k with
      | zero => exact absurd rfl hkn
      | succ k' => simp [modifyIdx]
    | succ n' =>
      cases k with
      | zero => simp [modifyIdx]
      | succ k' => simpa [modifyIdx] using ih (fun he => hkn (by simp [he]))

theorem mem_flags_addFlag (f f' : String) (m : Msg) (h : f' ∈ m.flags) :
    f' ∈ (addFlag f m).flags := by
  unfold addFlag
  by_cases hf : f ∈ m.flags <;> simp [hf, h]

theorem self_mem_flags_addFlag (f : String) (m : Msg) : f ∈ (addFlag f m).flags := by
  unfold addFlag
  by_cases hf : f ∈ m.flags <;> simp [hf]

/-- The fetch of the loop never alters the working folder (peek
semantics, C9 lifted to the whole folder). -/
theorem modifyIdx_fetchEffect (n : Nat) (l : List Msg) :
    modifyIdx (fetchFlagEffect FETCH_ITEMS) n l = l :=
  modifyIdx_id _ (fun _ => rfl) n l

/-! Trace-ordering infrastructure for the append-before-delete claim. -/

/-- A trace satisfies AppendBefore when every delete-mark of a sequence
number is preceded by an append of that sequence number whose response
type was OK. -/
def AppendBefore (t : List Event) : Prop :=
  ∀ (k i : Nat), t[k]? = some (Event.storeDel i) →
    ∃ j : Nat, j < k ∧ t[j]? = some (Event.append i Typ.ok)

theorem appendBefore_nil : AppendBefore [] := by
  intro k i hk
  simp at hk

theorem appendBefore_append {t : List Event} (l : List Event)
    (ht : AppendBefore t) (hl : ∀ e ∈ l, ∀ i, e ≠ Event.storeDel i) :
    AppendBefore (t ++ l) := by
  intro k i hk
  by_cases h : k < t.length
  · rw [List.getElem?_append_left h] at hk
    obtain ⟨j, hj, hjt⟩ := ht k i hk
    have hjlen : j < t.length := (List.getElem?_eq_some.mp hjt).1
    exact ⟨j, hj, by rw [List.getElem?_append_left hjlen]; exact hjt⟩
  · rw [List.getElem?_append_right (Nat.le_of_not_lt h)] at hk
    obtain ⟨hlt, he⟩ := List.getElem?_eq_some.mp hk
    exact absurd he (hl _ (List.getElem_mem hlt) i)

theorem appendBefore_okTriple {t : List Event} (i : Nat) (ht : AppendBefore t) :
    AppendBefore (t ++ [Event.fetch i, Event.append i Typ.ok, Event.storeDel i]) := by
  intro k i' hk
  by_cases h : k < t.length
  · rw [List.getElem?_append_left h] at hk
    obtain ⟨j, hj, hjt⟩ := ht k i' hk
    have hjlen : j < t.length := (List.getElem?_eq_some.mp hjt).1
    exact ⟨j, hj, by rw [List.getElem?_append_left hjlen]; exact hjt⟩
  · obtain ⟨d, rfl⟩ := Nat.exists_eq_add_of_le (Nat.le_of_not_lt h)
    rw [List.getElem?_append_right (Nat.le_add_right _ _)] at hk
    simp only [Nat.add_sub_cancel_left] at hk
    match d with
    | 0 => simp at hk
    | 1 => simp at hk
    | 2 =>
      simp only [List.getElem?_cons_succ, List.getElem?_cons_zero, Option.some.injEq,
        Event.storeDel.injEq] at hk
      subst hk
      refine ⟨t.length + 1, by omega, ?_⟩
      rw [List.getElem?_append_right (Nat.le_add_right _ _)]
      simp
    | n + 3 => simp at hk

/-- The protocol events the cleanup routine appends to the trace: the
expunge/close/logout triple of the source session when it is still in the
SELECTED state (on its currently selected folder), then the triple of the
target session. -/
def cleanupTraceEvents (sel : Option SrcFolder) : List Event :=
  (match sel with
   | some f => [Event.srcExpunge f, Event.srcClose, Event.srcLogout]
   | none => []) ++ [Event.tgtExpunge, Event.tgtClose, Event.tgtLogout]

theorem cleanupEnd_trace (ek : ExitKind) (sel : Option SrcFolder) (st : RunState) :
    (cleanupEnd ek sel st).trace = st.trace ++ cleanupTraceEvents sel := by
  rcases sel with _ | f
  · simp [cleanupEnd, cleanupTraceEvents]
  · cases f <;> simp [cleanupEnd, cleanupTraceEvents]

theorem cleanupTraceEvents_no_storeDel (sel : Option SrcFolder) :
    ∀ e ∈ cleanupTraceEvents sel, ∀ i : Nat, e ≠ Event.storeDel i := by
  intro e he i
  rcases sel with _ | f
  · simp [cleanupTraceEvents] at he
    rcases he with rfl | rfl | rfl <;> simp
  · cases f <;> simp [cleanupTraceEvents] at he <;>
      (rcases he with rfl | rfl | rfl | rfl | rfl | rfl <;> simp)

theorem runLoop_appendBefore (env : Env) (ids : List Nat) (st : RunState)
    (h : AppendBefore st.trace) : AppendBefore ((runLoop env ids st).1.trace) := by
  induction ids generalizing st with
  | nil => exact h
  | cons i rest ih =>
    cases hf : env.fetchFails i with
    | true =>
      simp only [runLoop, doMsg, hf, if_true]
      exact appendBefore_append _ h (by intro e he j; simp at he; subst he; simp)
    | false =>
      cases ha : env.appendTyp i with
      | no =>
        simp only [runLoop, doMsg, hf, ha, Bool.false_eq_true, if_false]
        exact ih _ (appendBefore_append _ h
          (by intro e he j; simp at he; rcases he with rfl | rfl <;> simp))
      | ok =>
        simp only [runLoop, doMsg, hf, ha, Bool.false_eq_true, if_false]
        exact ih _ (appendBefore_okTriple i h)

/-- C1: in every run, a source-side delete-mark (store of +FLAGS Deleted,
line 283) of a sequence number occurs in the command trace only at a
position strictly after a target append of that same sequence number
whose response was OK (lines 279-283): no message is delete-marked on the
source without a prior confirmed append. -/
theorem storeDel_only_after_append_ok (env : Env) (srv : SourceServer) (k i : Nat)
    (hk : (fullRun env srv).trace[k]? = some (Event.storeDel i)) :
    ∃ j : Nat, j < k ∧ (fullRun env srv).trace[j]? = some (Event.append i Typ.ok) := by
  have hab : AppendBefore (fullRun env srv).trace := by
    unfold fullRun
    dsimp only
    rcases hL : runLoop env (searchIds srv) ⟨srv.working, srv.trash, [], 0, []⟩ with ⟨st, ab⟩
    have hst : AppendBefore st.trace := by
      have h0 := runLoop_appendBefore env (searchIds srv)
        ⟨srv.working, srv.trash, [], 0, []⟩ appendBefore_nil
      rw [hL] at h0
      exact h0
    cases ab with
    | true =>
      simp only [cleanupEnd_trace]
      exact appendBefore_append _ hst (cleanupTraceEvents_no_storeDel _)
    | false =>
      have hrep : AppendBefore (st.trace ++ [Event.report st.count]) :=
        appendBefore_append _ hst (by intro e he j; simp at he; subst he; simp)
      cases hts : env.trashSelectTyp with
      | no =>
        simp only [cleanupEnd_trace]
        exact appendBefore_append _ (appendBefore_append _ hrep
          (by intro e he j; simp at he; subst he; simp))
          (cleanupTraceEvents_no_storeDel _)
      | ok =>
        have hsel : AppendBefore ((st.trace ++ [Event.report st.count]) ++
            [Event.selectTrash Typ.ok]) :=
          appendBefore_append _ hrep (by intro e he j; simp at he; subst he; simp)
        cases hss : env.trashStoreTyp with
        | ok =>
          simp only [cleanupEnd_trace]
          exact appendBefore_append _ (appendBefore_append _ hsel
            (by intro e he j; simp at he; subst he; simp))
            (cleanupTraceEvents_no_storeDel _)
        | no =>
          simp only [cleanupEnd_trace]
          exact appendBefore_append _ (appendBefore_append _ hsel
            (by intro e he j; simp at he; subst he; simp))
            (cleanupTraceEvents_no_storeDel _)
  exact hab k i hk

/-- A run environment in which every server operation succeeds. -/
def envW : Env := ⟨fun _ => false, fun _ => Typ.ok, Typ.ok, Typ.ok⟩

/-- A source server with one unflagged message in the working folder and
an empty trash folder. -/
def srvW : SourceServer := ⟨[⟨7, [], 0⟩], []⟩

/-- Witness for C1: in the all-OK run over one message, the delete-mark
of sequence number 1 sits at trace position 2 and the theorem produces
the confirmed append before it. -/
theorem storeDel_only_after_append_ok_witness :
    ∃ j : Nat, j < 2 ∧ (fullRun envW srvW).trace[j]? = some (Event.append 1 Typ.ok) :=
  storeDel_only_after_append_ok envW srvW 2 1 (by decide)

/-! Shape of the events emitted by the transfer loop. -/

/-- The kinds of event one loop iteration can emit: a fetch; an append,
only when the fetch of that sequence number succeeded; a delete-mark,
only when in addition the append answered OK. -/
def LoopEv (env : Env) (e : Event) : Prop :=
  (∃ a, e = Event.fetch a) ∨
  (∃ a t, e = Event.append a t ∧ env.fetchFails a = false) ∨
  (∃ a, e = Event.storeDel a ∧ env.fetchFails a = false ∧ env.appendTyp a = Typ.ok)

theorem loopEv_no_report (env : Env) (e : Event) (h : LoopEv env e) (n : Nat) :
    e ≠ Event.report n := by
  rcases h with ⟨a, rfl⟩ | ⟨a, t, rfl, _⟩ | ⟨a, rfl, _, _⟩ <;> simp

theorem cleanupTraceEvents_cases (sel : Option SrcFolder) :
    ∀ e ∈ cleanupTraceEvents sel,
      (∃ f, e = Event.srcExpunge f) ∨ e = Event.srcClose ∨ e = Event.srcLogout ∨
      e = Event.tgtExpunge ∨ e = Event.tgtClose ∨ e = Event.tgtLogout := by
  intro e he
  rcases sel with _ | f
  · simp [cleanupTraceEvents] at he
    rcases he with rfl | rfl | rfl <;> simp
  · simp [cleanupTraceEvents] at he
    rcases he with rfl | rfl | rfl | rfl | rfl | rfl <;> simp

theorem runLoop_trace_decomp (env : Env) (ids : List Nat) (st : RunState) :
    ∃ ext, (runLoop env ids st).1.trace = st.trace ++ ext ∧ ∀ e ∈ ext, LoopEv env e := by
  induction ids generalizing st with
  | nil => exact ⟨[], by simp [runLoop], by simp⟩
  | cons i rest ih =>
    cases hf : env.fetchFails i with
    | true =>
      refine ⟨[Event.fetch i], ?_, ?_⟩
      · simp only [runLoop, doMsg, hf, if_true]
      · intro e he
        simp at he
        subst he
        exact Or.inl ⟨i, rfl⟩
    | false =>
      cases ha : env.appendTyp i with
      | no =>
        simp only [runLoop, doMsg, hf, ha, Bool.false_eq_true, if_false]
        obtain ⟨ext, hx, hv⟩ := ih { st with
          working := modifyIdx (fetchFlagEffect FETCH_ITEMS) (i - 1) st.working,
          trace := st.trace ++ [Event.fetch i, Event.append i Typ.no] }
        refine ⟨[Event.fetch i, Event.append i Typ.no] ++ ext, ?_, ?_⟩
        · rw [hx]
          simp
        · intro e he
          rcases List.mem_append.mp he with h2 | h2
          · simp at h2
            rcases h2 with rfl | rfl
            · exact Or.inl ⟨i, rfl⟩
            · exact Or.inr (Or.inl ⟨i, Typ.no, rfl, hf⟩)
          · exact hv e h2
      | ok =>
        simp only [runLoop, doMsg, hf, ha, Bool.false_eq_true, if_false]
        obtain ⟨ext, hx, hv⟩ := ih { st with
          working := modifyIdx (addFlag "\\Deleted") (i - 1)
            (modifyIdx (fetchFlagEffect FETCH_ITEMS) (i - 1) st.working),
          target := st.target ++
            [((modifyIdx (fetchFlagEffect FETCH_ITEMS) (i - 1) st.working)[i - 1]?).getD
              ⟨0, [], 0⟩],
          count := st.count + 1,
          trace := st.trace ++ [Event.fetch i, Event.append i Typ.ok, Event.storeDel i] }
        refine ⟨[Event.fetch i, Event.append i Typ.ok, Event.storeDel i] ++ ext, ?_, ?_⟩
        · rw [hx]
          simp
        · intro e he
          rcases List.mem_append.mp he with h2 | h2
          · simp at h2
            rcases h2 with rfl | rfl | rfl
            · exact Or.inl ⟨i, rfl⟩
            · exact Or.inr (Or.inl ⟨i, Typ.ok, rfl, hf⟩)
            · exact Or.inr (Or.inr ⟨i, rfl, hf, ha⟩)
          · exact hv e h2

theorem runLoop_not_aborted (env : Env) (ids : List Nat) (st : RunState)
    (h : ∀ i ∈ ids, env.fetchFails i = false) : (runLoop env ids st).2 = false := by
  induction ids generalizing st with
  | nil => rfl
  | cons i rest ih =>
    have hf : env.fetchFails i = false := h i (by simp)
    cases ha : env.appendTyp i with
    | no =>
      simp only [runLoop, doMsg, hf, ha, Bool.false_eq_true, if_false]
      exact ih _ (fun j hj => h j (by simp [hj]))
    | ok =>
      simp only [runLoop, doMsg, hf, ha, Bool.false_eq_true, if_false]
      exact ih _ (fun j hj => h j (by simp [hj]))

theorem runLoop_aborted_of_fetchFail (env : Env) (ids : List Nat) (st : RunState)
    (h : ∃ i ∈ ids, env.fetchFails i = true) : (runLoop env ids st).2 = true := by
  induction ids generalizing st with
  | nil =>
    rcases h with ⟨i, hi, _⟩
    simp at hi
  | cons i rest ih =>
    cases hf : env.fetchFails i with
    | true => simp [runLoop, doMsg, hf]
    | false =>
      rcases h with ⟨j, hj, hjf⟩
      have hjr : j ∈ rest := by
        rcases List.mem_cons.mp hj with rfl | h2
        · exact absurd hjf (by simp [hf])
        · exact h2
      cases ha : env.appendTyp i with
      | no =>
        simp only [runLoop, doMsg, hf, ha, Bool.false_eq_true, if_false]
        exact ih _ ⟨j, hjr, hjf⟩
      | ok =>
        simp only [runLoop, doMsg, hf, ha, Bool.false_eq_true, if_false]
        exact ih _ ⟨j, hjr, hjf⟩

@[simp] theorem no_beq_ok : (Typ.no == Typ.ok) = false := by decide

@[simp] theorem ok_beq_ok : (Typ.ok == Typ.ok) = true := by decide

theorem runLoop_count (env : Env) (ids : List Nat) (st : RunState)
    (h : ∀ i ∈ ids, env.fetchFails i = false) :
    (runLoop env ids st).1.count =
      st.count + (ids.filter (fun i => env.appendTyp i == Typ.ok)).length := by
  induction ids generalizing st with
  | nil => simp [runLoop]
  | cons i rest ih =>
    have hf : env.fetchFails i = false := h i (by simp)
    cases ha : env.appendTyp i with
    | no =>
      simp only [runLoop, doMsg, hf, ha, Bool.false_eq_true, if_false]
      rw [ih _ (fun j hj => h j (by simp [hj]))]
      simp [List.filter_cons, ha]
    | ok =>
      simp only [runLoop, doMsg, hf, ha, Bool.false_eq_true, if_false]
      rw [ih _ (fun j hj => h j (by simp [hj]))]
      simp [List.filter_cons, ha]
      omega

/-- C2: whenever a final tally of n is reported (line 285), n equals
exactly the number of sequence numbers of the search result whose append
answered OK: the counter starts at 0 (line 265) and is incremented by
exactly 1 in the append-OK branch (line 282) and nowhere else, no matter
how many appends answered NO among the other sequence numbers. -/
theorem tally_equals_confirmed_appends (env : Env) (srv : SourceServer) (n : Nat)
    (h : Event.report n ∈ (fullRun env srv).trace) :
    n = ((searchIds srv).filter (fun i => env.appendTyp i == Typ.ok)).length := by
  unfold fullRun at h
  dsimp only at h
  obtain ⟨ext, hx, hv⟩ :=
    runLoop_trace_decomp env (searchIds srv) ⟨srv.working, srv.trash, [], 0, []⟩
  rcases hL : runLoop env (searchIds srv) ⟨srv.working, srv.trash, [], 0, []⟩ with ⟨st, ab⟩
  rw [hL] at h hx
  have hext : st.trace = ext := by simpa using hx
  cases ab with
  | true =>
    rw [cleanupEnd_trace] at h
    rcases List.mem_append.mp h with h2 | h2
    · rw [hext] at h2
      exact absurd rfl (loopEv_no_report env _ (hv _ h2) n)
    · rcases cleanupTraceEvents_cases _ _ h2 with ⟨f, he⟩ | he | he | he | he | he <;>
        simp at he
  | false =>
    have hok : ∀ i ∈ searchIds srv, env.fetchFails i = false := by
      by_contra hc
      push_neg at hc
      obtain ⟨i, hi, hne⟩ := hc
      have : (runLoop env (searchIds srv)
          (⟨srv.working, srv.trash, [], 0, []⟩ : RunState)).2 = true :=
        runLoop_aborted_of_fetchFail env _ _ ⟨i, hi, by simpa using hne⟩
      rw [hL] at this
      simp at this
    have hcount : st.count =
        ((searchIds srv).filter (fun i => env.appendTyp i == Typ.ok)).length := by
      have h0 := runLoop_count env (searchIds srv) ⟨srv.working, srv.trash, [], 0, []⟩ hok
      rw [hL] at h0
      simpa using h0
    have hloop : Event.report n ∉ st.trace := by
      rw [hext]
      intro hmem
      exact loopEv_no_report env _ (hv _ hmem) n rfl
    have hclean : ∀ sel, Event.report n ∉ cleanupTraceEvents sel := by
      intro sel hmem
      rcases cleanupTraceEvents_cases _ _ hmem with ⟨f, he⟩ | he | he | he | he | he <;>
        simp at he
    have hnc : n = st.count := by
      cases hts : env.trashSelectTyp with
      | no =>
        simp only [hts] at h
        rw [cleanupEnd_trace] at h
        dsimp only at h
        simp only [List.mem_append] at h
        rcases h with ((h2 | h2) | h2) | h2
        · exact absurd h2 hloop
        · simpa using h2
        · simp at h2
        · exact absurd h2 (hclean _)
      | ok =>
        cases hss : env.trashStoreTyp with
        | ok =>
          simp only [hts, hss] at h
          rw [cleanupEnd_trace] at h
          dsimp only at h
          simp only [List.mem_append] at h
          rcases h with (((h2 | h2) | h2) | h2) | h2
          · exact absurd h2 hloop
          · simpa using h2
          · simp at h2
          · simp at h2
          · exact absurd h2 (hclean _)
        | no =>
          simp only [hts, hss] at h
          rw [cleanupEnd_trace] at h
          dsimp only at h
          simp only [List.mem_append] at h
          rcases h with (((h2 | h2) | h2) | h2) | h2
          · exact absurd h2 hloop
          · simpa using h2
          · simp at h2
          · simp at h2
          · exact absurd h2 (hclean _)
    rw [hnc, hcount]

/-- A run environment in which every fetch succeeds, the append of
sequence number 1 answers NO, and every other operation succeeds. -/
def envW2 : Env := ⟨fun _ => false, fun i => if i == 1 then Typ.no else Typ.ok, Typ.ok, Typ.ok⟩

/-- A source server with two messages in the working folder. -/
def srvW2 : SourceServer := ⟨[⟨1, [], 0⟩, ⟨2, [], 0⟩], []⟩

/-- Witness for C2: with two messages and the first append answering NO,
the reported tally is 1, the number of confirmed appends. -/
theorem tally_equals_confirmed_appends_witness :
    1 = ((searchIds srvW2).filter (fun i => envW2.appendTyp i == Typ.ok)).length :=
  tally_equals_confirmed_appends envW2 srvW2 1 (by decide)

/-- The kinds of event that appear after the transfer loop: the tally
report, the trash select, the store on the trash, and the cleanup
events. -/
def PostEv (e : Event) : Prop :=
  (∃ m, e = Event.report m) ∨ (∃ t, e = Event.selectTrash t) ∨
  (∃ t, e = Event.storeTrashAll t) ∨ (∃ f, e = Event.srcExpunge f) ∨
  e = Event.srcClose ∨ e = Event.srcLogout ∨ e = Event.tgtExpunge ∨
  e = Event.tgtClose ∨ e = Event.tgtLogout

theorem cleanupTraceEvents_postEv (sel : Option SrcFolder) :
    ∀ e ∈ cleanupTraceEvents sel, PostEv e := by
  intro e he
  rcases cleanupTraceEvents_cases _ _ he with ⟨f, rfl⟩ | rfl | rfl | rfl | rfl | rfl
  · exact Or.inr (Or.inr (Or.inr (Or.inl ⟨f, rfl⟩)))
  · exact Or.inr (Or.inr (Or.inr (Or.inr (Or.inl rfl))))
  · exact Or.inr (Or.inr (Or.inr (Or.inr (Or.inr (Or.inl rfl)))))
  · exact Or.inr (Or.inr (Or.inr (Or.inr (Or.inr (Or.inr (Or.inl rfl))))))
  · exact Or.inr (Or.inr (Or.inr (Or.inr (Or.inr (Or.inr (Or.inr (Or.inl rfl)))))))
  · exact Or.inr (Or.inr (Or.inr (Or.inr (Or.inr (Or.inr (Or.inr (Or.inr rfl)))))))

/-- Every full-run trace splits into the loop part, whose events are
LoopEv, and a tail of report/trash/cleanup events. -/
theorem fullRun_trace_decomp (env : Env) (srv : SourceServer) :
    ∃ ext post, (fullRun env srv).trace = ext ++ post ∧
      (∀ e ∈ ext, LoopEv env e) ∧ (∀ e ∈ post, PostEv e) := by
  unfold fullRun
  dsimp only
  obtain ⟨ext, hx, hv⟩ :=
    runLoop_trace_decomp env (searchIds srv) ⟨srv.working, srv.trash, [], 0, []⟩
  rcases hL : runLoop env (searchIds srv) ⟨srv.working, srv.trash, [], 0, []⟩ with ⟨st, ab⟩
  rw [hL] at hx
  have hext : st.trace = ext := by simpa using hx
  cases ab with
  | true =>
    refine ⟨ext, cleanupTraceEvents (some SrcFolder.working), ?_, hv,
      cleanupTraceEvents_postEv _⟩
    rw [cleanupEnd_trace, hext]
  | false =>
    cases hts : env.trashSelectTyp with
    | no =>
      refine ⟨ext, [Event.report st.count, Event.selectTrash Typ.no] ++
        cleanupTraceEvents none, ?_, hv, ?_⟩
      · rw [cleanupEnd_trace]
        dsimp only
        rw [hext]
        simp
      · intro e he
        rcases List.mem_append.mp he with h2 | h2
        · simp at h2
          rcases h2 with rfl | rfl
          · exact Or.inl ⟨st.count, rfl⟩
          · exact Or.inr (Or.inl ⟨Typ.no, rfl⟩)
        · exact cleanupTraceEvents_postEv _ _ h2
    | ok =>
      cases hss : env.trashStoreTyp with
      | ok =>
        refine ⟨ext, [Event.report st.count, Event.selectTrash Typ.ok,
          Event.storeTrashAll Typ.ok] ++ cleanupTraceEvents (some SrcFolder.trash),
          ?_, hv, ?_⟩
        · rw [cleanupEnd_trace]
          dsimp only
          rw [hext]
          simp
        · intro e he
          rcases List.mem_append.mp he with h2 | h2
          · simp at h2
            rcases h2 with rfl | rfl | rfl
            · exact Or.inl ⟨st.count, rfl⟩
            · exact Or.inr (Or.inl ⟨Typ.ok, rfl⟩)
            · exact Or.inr (Or.inr (Or.inl ⟨Typ.ok, rfl⟩))
          · exact cleanupTraceEvents_postEv _ _ h2
      | no =>
        refine ⟨ext, [Event.report st.count, Event.selectTrash Typ.ok,
          Event.storeTrashAll Typ.no] ++ cleanupTraceEvents (some SrcFolder.trash),
          ?_, hv, ?_⟩
        · rw [cleanupEnd_trace]
          dsimp only
          rw [hext]
          simp
        · intro e he
          rcases List.mem_append.mp he with h2 | h2
          · simp at h2
            rcases h2 with rfl | rfl | rfl
            · exact Or.inl ⟨st.count, rfl⟩
            · exact Or.inr (Or.inl ⟨Typ.ok, rfl⟩)
            · exact Or.inr (Or.inr (Or.inl ⟨Typ.no, rfl⟩))
          · exact cleanupTraceEvents_postEv _ _ h2

theorem cleanupEnd_exit (ek : ExitKind) (sel : Option SrcFolder) (st : RunState) :
    (cleanupEnd ek sel st).exit = ek := by
  rcases sel with _ | f
  · rfl
  · cases f <;> rfl

theorem fullRun_exit_of_aborted (env : Env) (srv : SourceServer)
    (h : (runLoop env (searchIds srv)
      (⟨srv.working, srv.trash, [], 0, []⟩ : RunState)).2 = true) :
    (fullRun env srv).exit = ExitKind.crashed := by
  unfold fullRun
  dsimp only
  rcases hL : runLoop env (searchIds srv) ⟨srv.working, srv.trash, [], 0, []⟩ with ⟨st, ab⟩
  rw [hL] at h
  simp at h
  subst h
  exact cleanupEnd_exit _ _ _

/-- A run environment in which the fetch of sequence number 1 fails and
every other operation succeeds. -/
def envC4 : Env := ⟨fun i => i == 1, fun _ => Typ.ok, Typ.ok, Typ.ok⟩

/-- C4 counterexample: with two messages in the working folder and a
fetch failure on sequence number 1, the run does not continue to sequence
number 2 and does not complete: the only command issued is the failing
fetch, the unhandled exception triggers the cleanup while the working
folder is still selected, and the process exits abnormally (the claim
asserts the failure is only logged and processing continues). -/
theorem fetch_failure_aborts_run_counterexample :
    (fullRun envC4 srvW2).exit = ExitKind.crashed ∧
    (fullRun envC4 srvW2).trace = [Event.fetch 1,
      Event.srcExpunge SrcFolder.working, Event.srcClose, Event.srcLogout,
      Event.tgtExpunge, Event.tgtClose, Event.tgtLogout] := by decide

/-- C4 amended: if the fetch of sequence number X fails, X is not
appended, not delete-marked and does not increment the tally, but the
failure is not caught (there is no try/except around line 269): the loop
body raises, no later sequence number is processed, no tally is reported,
and the run exits abnormally. -/
theorem fetch_failure_skips_and_aborts (env : Env) (srv : SourceServer) (i : Nat)
    (hfail : env.fetchFails i = true) :
    (∀ t, Event.append i t ∉ (fullRun env srv).trace) ∧
    Event.storeDel i ∉ (fullRun env srv).trace ∧
    (i ∈ searchIds srv → (fullRun env srv).exit = ExitKind.crashed ∧
      ∀ m, Event.report m ∉ (fullRun env srv).trace) := by
  obtain ⟨ext, post, hx, hext, hpost⟩ := fullRun_trace_decomp env srv
  refine ⟨?_, ?_, ?_⟩
  · intro t hmem
    rw [hx] at hmem
    rcases List.mem_append.mp hmem with h2 | h2
    · rcases hext _ h2 with ⟨a, he⟩ | ⟨a, t', he, hfa⟩ | ⟨a, he, _, _⟩
      · simp at he
      · have : a = i := by
          have := he
          simp at this
          exact this.1.symm
        rw [this] at hfa
        rw [hfail] at hfa
        simp at hfa
      · simp at he
    · rcases hpost _ h2 with ⟨m, he⟩ | ⟨t', he⟩ | ⟨t', he⟩ | ⟨f, he⟩ | he | he | he | he | he <;>
        simp at he
  · intro hmem
    rw [hx] at hmem
    rcases List.mem_append.mp hmem with h2 | h2
    · rcases hext _ h2 with ⟨a, he⟩ | ⟨a, t', he, _⟩ | ⟨a, he, hfa, _⟩
      · simp at he
      · simp at he
      · have : a = i := by
          have := he
          simp at this
          exact this.symm
        rw [this] at hfa
        rw [hfail] at hfa
        simp at hfa
    · rcases hpost _ h2 with ⟨m, he⟩ | ⟨t', he⟩ | ⟨t', he⟩ | ⟨f, he⟩ | he | he | he | he | he <;>
        simp at he
  · intro hids
    have hab : (runLoop env (searchIds srv)
        (⟨srv.working, srv.trash, [], 0, []⟩ : RunState)).2 = true :=
      runLoop_aborted_of_fetchFail env _ _ ⟨i, hids, hfail⟩
    refine ⟨fullRun_exit_of_aborted env srv hab, ?_⟩
    intro m hmem
    obtain ⟨ext2, hx2, hv2⟩ :=
      runLoop_trace_decomp env (searchIds srv) ⟨srv.working, srv.trash, [], 0, []⟩
    rcases hL : runLoop env (searchIds srv) ⟨srv.working, srv.trash, [], 0, []⟩ with ⟨st, ab⟩
    rw [hL] at hab hx2
    simp only at hab
    subst hab
    have hext2 : st.trace = ext2 := by simpa using hx2
    have htr : (fullRun env srv).trace =
        st.trace ++ cleanupTraceEvents (some SrcFolder.working) := by
      unfold fullRun
      dsimp only
      rw [hL]
      exact cleanupEnd_trace _ _ _
    rw [htr] at hmem
    rcases List.mem_append.mp hmem with h2 | h2
    · rw [hext2] at h2
      exact loopEv_no_report env _ (hv2 _ h2) m rfl
    · rcases cleanupTraceEvents_cases _ _ h2 with ⟨f, he⟩ | he | he | he | he | he <;>
        simp at he

/-- Witness for C4 (amended): applying the theorem to the concrete
aborting run shows sequence number 1 is never delete-marked there. -/
theorem fetch_failure_skips_and_aborts_witness :
    Event.storeDel 1 ∉ (fullRun envC4 srvW2).trace :=
  (fetch_failure_skips_and_aborts envC4 srvW2 1 (by decide)).2.1

/-! State-preservation lemmas for the transfer loop. -/

theorem runLoop_trash (env : Env) (ids : List Nat) (st : RunState) :
    (runLoop env ids st).1.trash = st.trash := by
  induction ids generalizing st with
  | nil => rfl
  | cons i rest ih =>
    cases hf : env.fetchFails i with
    | true => simp [runLoop, doMsg, hf]
    | false =>
      cases ha : env.appendTyp i with
      | no =>
        simp only [runLoop, doMsg, hf, ha, Bool.false_eq_true, if_false]
        exact ih _
      | ok =>
        simp only [runLoop, doMsg, hf, ha, Bool.false_eq_true, if_false]
        exact ih _

theorem runLoop_working_length (env : Env) (ids : List Nat) (st : RunState) :
    (runLoop env ids st).1.working.length = st.working.length := by
  induction ids generalizing st with
  | nil => rfl
  | cons i rest ih =>
    cases hf : env.fetchFails i with
    | true => simp [runLoop, doMsg, hf]
    | false =>
      cases ha : env.appendTyp i with
      | no =>
        simp only [runLoop, doMsg, hf, ha, Bool.false_eq_true, if_false]
        rw [ih _]
        simp [modifyIdx_length]
      | ok =>
        simp only [runLoop, doMsg, hf, ha, Bool.false_eq_true, if_false]
        rw [ih _]
        simp [modifyIdx_length]

theorem expungeFolder_all_marked (l : List Msg) :
    expungeFolder (l.map (addFlag "\\Deleted")) = [] := by
  induction l with
  | nil => rfl
  | cons m ms ih =>
    have hc : ((addFlag "\\Deleted" m).flags.contains "\\Deleted") = true :=
      List.elem_eq_true_of_mem (self_mem_flags_addFlag "\\Deleted" m)
    simp only [expungeFolder, List.map_cons, List.filter_cons, hc] at ih ⊢
    simpa [expungeFolder] using ih

/-- A run environment in which every fetch and append succeeds but the
select of the trash folder answers NO. -/
def envC8 : Env := ⟨fun _ => false, fun _ => Typ.ok, Typ.no, Typ.ok⟩

/-- C8 counterexample: when the trash select of line 286 answers NO, the
run does not complete with a normal exit: imaplib puts the source session
in the AUTH state, the store of line 287 raises there and the process
exits abnormally (the claim asserts the failure is logged and the run
still completes normally). -/
theorem trash_select_failure_crashes_counterexample :
    (fullRun envC8 srvW).exit = ExitKind.crashed ∧
    (fullRun envC8 srvW).exit ≠ ExitKind.normal := by decide

/-- C8 amended: when the transfer loop completes, the engine reports the
tally (line 285) and then selects the trash folder; the reported tally is
the number of confirmed appends whatever the trash step does; when the
select answers OK the store of line 287 delete-marks every message of the
trash folder (all of them are gone after the exit expunge when the store
answers OK), and the run exits normally; but when the select answers NO
the subsequent store raises unhandled and the run exits abnormally. -/
theorem trash_purge_after_processing (env : Env) (srv : SourceServer)
    (hcomp : ∀ i ∈ searchIds srv, env.fetchFails i = false) :
    ((fullRun env srv).exit = ExitKind.normal ↔ env.trashSelectTyp = Typ.ok) ∧
    Event.report ((searchIds srv).filter (fun i => env.appendTyp i == Typ.ok)).length ∈
      (fullRun env srv).trace ∧
    (env.trashSelectTyp = Typ.ok → Event.selectTrash Typ.ok ∈ (fullRun env srv).trace ∧
      (env.trashStoreTyp = Typ.ok → (fullRun env srv).src.trash = [])) := by
  have hcnt := runLoop_count env (searchIds srv) ⟨srv.working, srv.trash, [], 0, []⟩ hcomp
  have hnab := runLoop_not_aborted env (searchIds srv)
    ⟨srv.working, srv.trash, [], 0, []⟩ hcomp
  have htrash := runLoop_trash env (searchIds srv) ⟨srv.working, srv.trash, [], 0, []⟩
  unfold fullRun
  dsimp only
  rcases hL : runLoop env (searchIds srv) ⟨srv.working, srv.trash, [], 0, []⟩ with ⟨st, ab⟩
  rw [hL] at hcnt hnab htrash
  simp only at hnab
  subst hnab
  have hc : st.count =
      ((searchIds srv).filter (fun i => env.appendTyp i == Typ.ok)).length := by
    simpa using hcnt
  have ht : st.trash = srv.trash := by simpa using htrash
  cases hts : env.trashSelectTyp with
  | no =>
    refine ⟨?_, ?_, ?_⟩
    · rw [cleanupEnd_exit]
      simp
    · rw [cleanupEnd_trace]
      dsimp only
      rw [hc]
      simp
    · intro hok
      simp at hok
  | ok =>
    cases hss : env.trashStoreTyp with
    | ok =>
      refine ⟨?_, ?_, ?_⟩
      · rw [cleanupEnd_exit]
        simp
      · rw [cleanupEnd_trace]
        dsimp only
        rw [hc]
        simp
      · intro _
        refine ⟨?_, ?_⟩
        · rw [cleanupEnd_trace]
          dsimp only
          simp
        · intro _
          show expungeFolder (st.trash.map (addFlag "\\Deleted")) = []
          exact expungeFolder_all_marked _
    | no =>
      refine ⟨?_, ?_, ?_⟩
      · rw [cleanupEnd_exit]
        simp
      · rw [cleanupEnd_trace]
        dsimp only
        rw [hc]
        simp
      · intro _
        refine ⟨?_, ?_⟩
        · rw [cleanupEnd_trace]
          dsimp only
          simp
        · intro hok2
          simp at hok2

/-- Witness for C8 (amended): the all-OK one-message run exits normally
with a reported tally of 1 and an emptied trash folder. -/
theorem trash_purge_after_processing_witness :
    (fullRun envW srvW).exit = ExitKind.normal ∧ (fullRun envW srvW).src.trash = [] := by
  have h := trash_purge_after_processing envW srvW (by decide)
  exact ⟨h.1.mpr (by decide), (h.2.2 (by decide)).2 (by decide)⟩

/-! Delete-marks placed on the working folder persist: nothing in a
normally completing run expunges the working folder. -/

/-- Every message of the working folder whose sequence number has been
delete-marked carries the Deleted flag. -/
def Marked (st : RunState) : Prop :=
  ∀ (j : Nat) (m : Msg), Event.storeDel j ∈ st.trace →
    st.working[j - 1]? = some m → "\\Deleted" ∈ m.flags

theorem doMsg_marked (env : Env) (i : Nat) (st : RunState) (h : Marked st) :
    Marked (doMsg env i st).1 := by
  cases hf : env.fetchFails i with
  | true =>
    simp only [doMsg, hf, if_true]
    intro j m hj hm
    rcases List.mem_append.mp hj with h2 | h2
    · exact h j m h2 hm
    · simp at h2
  | false =>
    cases ha : env.appendTyp i with
    | no =>
      simp only [doMsg, hf, ha, Bool.false_eq_true, if_false]
      intro j m hj hm
      rw [modifyIdx_fetchEffect] at hm
      rcases List.mem_append.mp hj with h2 | h2
      · exact h j m h2 hm
      · simp at h2
    | ok =>
      simp only [doMsg, hf, ha, Bool.false_eq_true, if_false]
      intro j m hj hm
      rw [modifyIdx_fetchEffect] at hm
      by_cases hji : j - 1 = i - 1
      · rw [hji, modifyIdx_getElem_self] at hm
        cases hw : st.working[i - 1]? with
        | none =>
          rw [hw] at hm
          simp at hm
        | some m0 =>
          rw [hw] at hm
          simp at hm
          rw [← hm]
          exact self_mem_flags_addFlag _ _
      · rw [modifyIdx_getElem_ne _ hji] at hm
        rcases List.mem_append.mp hj with h2 | h2
        · exact h j m h2 hm
        · simp at h2
          rw [h2] at hji
          exact absurd rfl hji

theorem runLoop_marked (env : Env) (ids : List Nat) (st : RunState) (h : Marked st) :
    Marked (runLoop env ids st).1 := by
  induction ids generalizing st with
  | nil => exact h
  | cons i rest ih =>
    have hd := doMsg_marked env i st h
    cases hf : env.fetchFails i with
    | true =>
      simp only [runLoop, doMsg, hf, if_true] at hd ⊢
      exact hd
    | false =>
      cases ha : env.appendTyp i with
      | no =>
        simp only [runLoop, doMsg, hf, ha, Bool.false_eq_true, if_false] at hd ⊢
        exact ih _ hd
      | ok =>
        simp only [runLoop, doMsg, hf, ha, Bool.false_eq_true, if_false] at hd ⊢
        exact ih _ hd

theorem loopEv_no_srcExpunge (env : Env) (e : Event) (h : LoopEv env e) (f : SrcFolder) :
    e ≠ Event.srcExpunge f := by
  rcases h with ⟨a, rfl⟩ | ⟨a, t, rfl, _⟩ | ⟨a, rfl, _, _⟩ <;> simp

theorem cleanupTrash_no_expunge_working :
    Event.srcExpunge SrcFolder.working ∉ cleanupTraceEvents (some SrcFolder.trash) := by
  decide

/-- C10: in a run that completes normally (loop done, trash select OK)
the source session's selected folder at process exit is the trash folder,
so the expunge of the cleanup applies only to the trash: the trace never
contains an expunge of the working folder, the working folder keeps all
its messages, and every message that was delete-marked during the
transfer is still there, still carrying the Deleted flag. -/
theorem normal_exit_leaves_marks_in_working (env : Env) (srv : SourceServer)
    (hf : ∀ i ∈ searchIds srv, env.fetchFails i = false)
    (hts : env.trashSelectTyp = Typ.ok) :
    (fullRun env srv).exit = ExitKind.normal ∧
    (fullRun env srv).srcSelAtExit = some SrcFolder.trash ∧
    Event.srcExpunge SrcFolder.working ∉ (fullRun env srv).trace ∧
    (fullRun env srv).src.working.length = srv.working.length ∧
    ∀ (i : Nat) (m : Msg), Event.storeDel i ∈ (fullRun env srv).trace →
      ((fullRun env srv).src.working[i - 1]?) = some m → "\\Deleted" ∈ m.flags := by
  have hnab := runLoop_not_aborted env (searchIds srv)
    ⟨srv.working, srv.trash, [], 0, []⟩ hf
  have hlen := runLoop_working_length env (searchIds srv) ⟨srv.working, srv.trash, [], 0, []⟩
  have hmk := runLoop_marked env (searchIds srv) ⟨srv.working, srv.trash, [], 0, []⟩
    (by intro j m hj _; simp at hj)
  obtain ⟨ext, hx, hv⟩ :=
    runLoop_trace_decomp env (searchIds srv) ⟨srv.working, srv.trash, [], 0, []⟩
  unfold fullRun
  dsimp only
  rcases hL : runLoop env (searchIds srv) ⟨srv.working, srv.trash, [], 0, []⟩ with ⟨st, ab⟩
  rw [hL] at hnab hlen hx
  simp only at hnab
  subst hnab
  have hext : st.trace = ext := by simpa using hx
  have hstlen : st.working.length = srv.working.length := by simpa using hlen
  have hstmk : Marked st := by
    have := hmk
    rw [hL] at this
    exact this
  rw [hts]
  have hnostore : ∀ e, e ∈ [Event.report st.count, Event.selectTrash Typ.ok] ∨
      (∃ t, e = Event.storeTrashAll t) → ∀ j : Nat, e ≠ Event.storeDel j := by
    intro e he j
    rcases he with h2 | ⟨t, rfl⟩
    · simp at h2
      rcases h2 with rfl | rfl <;> simp
    · simp
  cases hss : env.trashStoreTyp with
  | ok =>
    refine ⟨cleanupEnd_exit _ _ _, ?_, ?_, ?_, ?_⟩
    · rcases hsel : (some SrcFolder.trash : Option SrcFolder) with _ | f
      · simp at hsel
      · rfl
    · rw [cleanupEnd_trace]
      dsimp only
      intro hmem
      rcases List.mem_append.mp hmem with h2 | h2
      · rcases List.mem_append.mp h2 with h3 | h3
        · rcases List.mem_append.mp h3 with h4 | h4
          · rcases List.mem_append.mp h4 with h5 | h5
            · rw [hext] at h5
              exact loopEv_no_srcExpunge env _ (hv _ h5) _ rfl
            · simp at h5
          · simp at h4
        · simp at h3
      · exact cleanupTrash_no_expunge_working h2
    · show st.working.length = srv.working.length
      exact hstlen
    · intro i m hmem hget
      rw [cleanupEnd_trace] at hmem
      dsimp only at hmem
      have hst : Event.storeDel i ∈ st.trace := by
        rcases List.mem_append.mp hmem with h2 | h2
        · rcases List.mem_append.mp h2 with h3 | h3
          · rcases List.mem_append.mp h3 with h4 | h4
            · rcases List.mem_append.mp h4 with h5 | h5
              · exact h5
              · simp at h5
            · simp at h4
          · simp at h3
        · exact absurd h2 (by
            intro hc
            exact cleanupTraceEvents_no_storeDel _ _ hc i rfl)
      exact hstmk i m hst hget
  | no =>
    refine ⟨cleanupEnd_exit _ _ _, ?_, ?_, ?_, ?_⟩
    · rfl
    · rw [cleanupEnd_trace]
      dsimp only
      intro hmem
      rcases List.mem_append.mp hmem with h2 | h2
      · rcases List.mem_append.mp h2 with h3 | h3
        · rcases List.mem_append.mp h3 with h4 | h4
          · rcases List.mem_append.mp h4 with h5 | h5
            · rw [hext] at h5
              exact loopEv_no_srcExpunge env _ (hv _ h5) _ rfl
            · simp at h5
          · simp at h4
        · simp at h3
      · exact cleanupTrash_no_expunge_working h2
    · show st.working.length = srv.working.length
      exact hstlen
    · intro i m hmem hget
      rw [cleanupEnd_trace] at hmem
      dsimp only at hmem
      have hst : Event.storeDel i ∈ st.trace := by
        rcases List.mem_append.mp hmem with h2 | h2
        · rcases List.mem_append.mp h2 with h3 | h3
          · rcases List.mem_append.mp h3 with h4 | h4
            · rcases List.mem_append.mp h4 with h5 | h5
              · exact h5
              · simp at h5
            · simp at h4
          · simp at h3
        · exact absurd h2 (by
            intro hc
            exact cleanupTraceEvents_no_storeDel _ _ hc i rfl)
      exact hstmk i m hst hget

/-- Witness for C10: in the all-OK one-message run the trash folder is
selected at exit and the working folder still holds its one (now
delete-marked) message. -/
theorem normal_exit_leaves_marks_in_working_witness :
    (fullRun envW srvW).srcSelAtExit = some SrcFolder.trash ∧
    (fullRun envW srvW).src.working.length = 1 :=
  have h := normal_exit_leaves_marks_in_working envW srvW (by decide) (by decide)
  ⟨h.2.1, h.2.2.2.1⟩

/-- C3 is refuted by the code: after a first run in which every operation
succeeds, the transferred message is still present in the source working
folder (delete-marked but never expunged, because the exit-time expunge
applies to the then-selected trash folder), so a second run with no
intervening new mail finds it again and transfers it again: the second
run's tally is 1, not 0. -/
theorem second_run_transfers_again :
    (fullRun envW srvW).count = 1 ∧
    (fullRun envW srvW).src.working.length = 1 ∧
    (fullRun envW (fullRun envW srvW).src).count = 1 ∧
    Event.storeDel 1 ∈ (fullRun envW (fullRun envW srvW).src).trace := by decide

/-!
The cleanup routine in isolation (lines 162-182).  It reads module
globals and issues expunge/close/logout on each session whose imaplib
state is SELECTED.  We model the globals it consults, the imaplib state
transitions of the three operations, and injected faults for each
operation; the first component of the result is the exception escaping
cleanup (none when it returns normally).  imaplib state effects: expunge
leaves the state unchanged; close sets the state to AUTH in a finally
block, so also when it raises; logout sets the state to LOGOUT before
sending anything, so also when it raises.
-/

/-- imaplib connection states as held in the session's state attribute. -/
inductive IState where
  | nonauth : IState
  | auth : IState
  | selectedS : IState
  | logoutS : IState
deriving DecidableEq

/-- The module globals cleanup consults: whether the logger,
source_mailbox and target_mailbox globals exist, and each session's
imaplib state. -/
structure Globals where
  loggerDefined : Bool
  srcDefined : Bool
  srcState : IState
  tgtDefined : Bool
  tgtState : IState
deriving DecidableEq

/-- Injected faults: whether each of the six server operations cleanup
can issue raises (for example because the connection is already gone). -/
structure CFaults where
  srcExpungeRaises : Bool
  srcCloseRaises : Bool
  srcLogoutRaises : Bool
  tgtExpungeRaises : Bool
  tgtCloseRaises : Bool
  tgtLogoutRaises : Bool
deriving DecidableEq

/-- Server operations issued by cleanup. -/
inductive COp where
  | srcExpunge : COp
  | srcClose : COp
  | srcLogout : COp
  | tgtExpunge : COp
  | tgtClose : COp
  | tgtLogout : COp
deriving DecidableEq

/-- Exceptions escaping cleanup: the NameError of line 166 when the
logger global does not exist, or an imaplib error from a session
operation. -/
inductive CErr where
  | nameError : CErr
  | imapError : CErr
deriving DecidableEq

/-- The target half of cleanup (lines 175-182): acts only when
target_mailbox exists and its state is SELECTED. -/
def cleanupTgt (f : CFaults) (g : Globals) (pre : List COp) :
    Option CErr × Globals × List COp :=
  if g.tgtDefined && g.tgtState == IState.selectedS then
    if f.tgtExpungeRaises then (some CErr.imapError, g, pre ++ [COp.tgtExpunge])
    else if f.tgtCloseRaises then
      (some CErr.imapError, { g with tgtState := IState.auth },
        pre ++ [COp.tgtExpunge, COp.tgtClose])
    else if f.tgtLogoutRaises then
      (some CErr.imapError, { g with tgtState := IState.logoutS },
        pre ++ [COp.tgtExpunge, COp.tgtClose, COp.tgtLogout])
    else (none, { g with tgtState := IState.logoutS },
      pre ++ [COp.tgtExpunge, COp.tgtClose, COp.tgtLogout])
  else (none, g, pre)

/-- cleanup (lines 162-182).  Line 166 logs through the logger global
without first checking that it exists, so a missing logger raises a
NameError at once.  The source branch (lines 167-174) acts only when
source_mailbox exists and its state is SELECTED; no operation is wrapped
in a try/except, so the first raising operation aborts cleanup (the
target session is then not touched at all). -/
def cleanup (f : CFaults) (g : Globals) : Option CErr × Globals × List COp :=
  if !g.loggerDefined then (some CErr.nameError, g, [])
  else if g.srcDefined && g.srcState == IState.selectedS then
    if f.srcExpungeRaises then (some CErr.imapError, g, [COp.srcExpunge])
    else if f.srcCloseRaises then
      (some CErr.imapError, { g with srcState := IState.auth },
        [COp.srcExpunge, COp.srcClose])
    else if f.srcLogoutRaises then
      (some CErr.imapError, { g with srcState := IState.logoutS },
        [COp.srcExpunge, COp.srcClose, COp.srcLogout])
    else cleanupTgt f { g with srcState := IState.logoutS }
      [COp.srcExpunge, COp.srcClose, COp.srcLogout]
  else cleanupTgt f g []

/-- No injected fault: every server operation succeeds. -/
def NoFaults (f : CFaults) : Prop :=
  f = ⟨false, false, false, false, false, false⟩

/-- n successive invocations of cleanup (as happen when the atexit hook
and the SIGINT handler both fire), collecting all server operations. -/
def cleanupN (f : CFaults) : Nat → Globals → Globals × List COp
  | 0, g => (g, [])
  | n + 1, g =>
    let r := cleanup f g
    let rest := cleanupN f n r.2.1
    (rest.1, r.2.2 ++ rest.2)

/-- Globals after one fault-free cleanup: each session that was SELECTED
is now logged out. -/
def postGlobals (g : Globals) : Globals :=
  { g with
    srcState := if g.srcDefined && g.srcState == IState.selectedS then IState.logoutS
      else g.srcState,
    tgtState := if g.tgtDefined && g.tgtState == IState.selectedS then IState.logoutS
      else g.tgtState }

/-- The server operations one fault-free cleanup issues. -/
def cleanupOps (g : Globals) : List COp :=
  (if g.srcDefined && g.srcState == IState.selectedS then
    [COp.srcExpunge, COp.srcClose, COp.srcLogout] else []) ++
  (if g.tgtDefined && g.tgtState == IState.selectedS then
    [COp.tgtExpunge, COp.tgtClose, COp.tgtLogout] else [])

@[simp] theorem logoutS_beq_selectedS : (IState.logoutS == IState.selectedS) = false := by
  decide

theorem cleanup_noFaults (f : CFaults) (hf : NoFaults f) (g : Globals)
    (hlog : g.loggerDefined = true) :
    cleanup f g = (none, postGlobals g, cleanupOps g) := by
  rw [hf]
  obtain ⟨l, sd, ss, td, ts⟩ := g
  cases l with
  | false => simp at hlog
  | true =>
    cases hs : (sd && ss == IState.selectedS) <;>
      cases ht : (td && ts == IState.selectedS) <;>
        simp [cleanup, cleanupTgt, hs, ht, postGlobals, cleanupOps]

theorem postGlobals_log (g : Globals) :
    (postGlobals g).loggerDefined = g.loggerDefined := rfl

theorem postGlobals_src_idle (g : Globals) :
    ((postGlobals g).srcDefined && (postGlobals g).srcState == IState.selectedS) = false := by
  cases hs : (g.srcDefined && g.srcState == IState.selectedS) with
  | true => simp [postGlobals, hs]
  | false => simp [postGlobals, hs]

theorem postGlobals_tgt_idle (g : Globals) :
    ((postGlobals g).tgtDefined && (postGlobals g).tgtState == IState.selectedS) = false := by
  cases ht : (g.tgtDefined && g.tgtState == IState.selectedS) with
  | true => simp [postGlobals, ht]
  | false => simp [postGlobals, ht]

theorem cleanup_idle (f : CFaults) (hf : NoFaults f) (g : Globals)
    (hlog : g.loggerDefined = true)
    (hs : (g.srcDefined && g.srcState == IState.selectedS) = false)
    (ht : (g.tgtDefined && g.tgtState == IState.selectedS) = false) :
    cleanup f g = (none, g, []) := by
  rw [hf]
  simp [cleanup, cleanupTgt, hs, ht, hlog]

theorem cleanupN_idle (f : CFaults) (hf : NoFaults f) (n : Nat) (g : Globals)
    (hlog : g.loggerDefined = true)
    (hs : (g.srcDefined && g.srcState == IState.selectedS) = false)
    (ht : (g.tgtDefined && g.tgtState == IState.selectedS) = false) :
    cleanupN f n g = (g, []) := by
  induction n with
  | zero => rfl
  | succ k ih =>
    simp only [cleanupN, cleanup_idle f hf g hlog hs ht, ih]
    simp

/-- C6: invoking cleanup any number N of times, N at least 1, with no
operation faulting, has exactly the same server-visible effect as
invoking it once: exactly one expunge+close+logout sequence is issued per
session that is in the SELECTED state at the first invocation, the later
invocations find the sessions logged out and issue no server operation,
and the resulting globals agree. -/
theorem cleanup_idempotent (f : CFaults) (g : Globals) (n : Nat)
    (hf : NoFaults f) (hlog : g.loggerDefined = true) (hn : 1 ≤ n) :
    cleanupN f n g = cleanupN f 1 g ∧
    (cleanupN f n g).2 =
      (if g.srcDefined && g.srcState == IState.selectedS then
        [COp.srcExpunge, COp.srcClose, COp.srcLogout] else []) ++
      (if g.tgtDefined && g.tgtState == IState.selectedS then
        [COp.tgtExpunge, COp.tgtClose, COp.tgtLogout] else []) := by
  have h1 : ∀ k, cleanupN f (k + 1) g = (postGlobals g, cleanupOps g) := by
    intro k
    have hk : cleanupN f k (postGlobals g) = (postGlobals g, []) :=
      cleanupN_idle f hf k (postGlobals g) (by rw [postGlobals_log, hlog])
        (postGlobals_src_idle g) (postGlobals_tgt_idle g)
    simp only [cleanupN, cleanup_noFaults f hf g hlog]
    simp [hk]
  obtain ⟨m, rfl⟩ := Nat.exists_eq_add_of_le hn
  rw [Nat.add_comm 1 m]
  refine ⟨by rw [h1 m, h1 0], ?_⟩
  rw [h1 m]
  rfl

/-- The globals of a run in which the logger exists and both sessions sit
in the SELECTED state. -/
def gSel : Globals := ⟨true, true, IState.selectedS, true, IState.selectedS⟩

/-- A fault setting in which only the source expunge raises (for
example because the connection is already gone). -/
def fExpRaise : CFaults := ⟨true, false, false, false, false, false⟩

/-- The fault-free setting. -/
def fNone : CFaults := ⟨false, false, false, false, false, false⟩

/-- Witness for C6: two successive fault-free cleanups over two SELECTED
sessions equal a single one. -/
theorem cleanup_idempotent_witness : cleanupN fNone 2 gSel = cleanupN fNone 1 gSel :=
  (cleanup_idempotent fNone gSel 2 rfl rfl (by decide)).1

/-- C5 counterexample: cleanup can raise.  With the source session
SELECTED and its expunge raising (connection already gone), the
imaplib error escapes cleanup, and with the logger global missing the
very first log call of line 166 raises a NameError: faults during
cleanup are not swallowed. -/
theorem cleanup_can_raise_counterexample :
    (cleanup fExpRaise gSel).1 = some CErr.imapError ∧
    (cleanup fNone { gSel with loggerDefined := false }).1 = some CErr.nameError := by
  decide

/-- C5 amended: cleanup acts only on sessions that exist and are in the
SELECTED state, and it returns normally when the logger exists and no
operation faults; but it contains no exception handling: when the logger
global is missing the first log call raises a NameError, and any fault
raised by expunge (and likewise close or logout) propagates out of
cleanup. -/
theorem cleanup_fault_propagation (f : CFaults) (g : Globals) :
    (g.loggerDefined = false → (cleanup f g).1 = some CErr.nameError) ∧
    (g.loggerDefined = true → NoFaults f → (cleanup f g).1 = none) ∧
    (g.loggerDefined = true → g.srcDefined = true → g.srcState = IState.selectedS →
      f.srcExpungeRaises = true → (cleanup f g).1 = some CErr.imapError) := by
  refine ⟨?_, ?_, ?_⟩
  · intro hlog
    simp [cleanup, hlog]
  · intro hlog hf
    rw [cleanup_noFaults f hf g hlog]
  · intro hlog hsd hst hexp
    simp [cleanup, hlog, hsd, hst, hexp]

/-- Witness for C5 (amended): applied to the SELECTED source session with
a raising expunge, cleanup lets the imaplib error out. -/
theorem cleanup_fault_propagation_witness :
    (cleanup fExpRaise gSel).1 = some CErr.imapError :=
  (cleanup_fault_propagation fExpRaise gSel).2.2 rfl rfl rfl rfl

/-!
Flag and timestamp round trip (lines 269-279).  The loop parses the
fetch envelope data[0][0] with imaplib.ParseFlags, joins the flags with
spaces (line 275), recomputes the date with
imaplib.Time2Internaldate(imaplib.Internaldate2tuple(data[0][0]))
(line 277) and hands both to append (line 279).  We model the envelope
text as a character list generated the way a server builds it
(seq SP ( FLAGS (flag .. flag) followed by the rest of the envelope) and
embed ParseFlags faithfully: its regex anchors on the text FLAGS ( and
takes the characters up to the next closing parenthesis, provided one
exists, then splits them on whitespace (a fetch envelope contains exactly
one FLAGS section, so locating the first occurrence agrees with the
regex).  The INTERNALDATE conversion pair is embedded from the imaplib
documentation at the granularity of instants: a struct_time is determined
by its civil fields (summarised by their calendar.timegm value) plus
tm_gmtoff; Internaldate2tuple returns time.localtime of the UT instant of
the date string, and Time2Internaldate renders the fields with the
tm_gmtoff offset, so the rendered string may use a different zone but
denotes the same instant.
-/

/-- Space-join of flag atoms, as str.join does on line 275. -/
def joinSpace : List (List Char) → List Char
  | [] => []
  | [f] => f
  | f :: g :: rest => f ++ ' ' :: joinSpace (g :: rest)

/-- Whitespace split with no empty words (Python str.split() with no
separator argument, used by imaplib.ParseFlags; flag lists only ever
contain the space character as whitespace). -/
def splitWsAux : List Char → List Char → List (List Char)
  | cur, [] => if cur.isEmpty then [] else [cur.reverse]
  | cur, c :: cs =>
    if c = ' ' then
      if cur.isEmpty then splitWsAux [] cs
      else cur.reverse :: splitWsAux [] cs
    else splitWsAux (c :: cur) cs

def splitWs (s : List Char) : List (List Char) :=
  splitWsAux [] s

/-- The characters after the first occurrence of pat, none when pat does
not occur. -/
def afterMarker (pat : List Char) : List Char → Option (List Char)
  | [] => none
  | c :: cs =>
    if pat.isPrefixOf (c :: cs) then some ((c :: cs).drop pat.length)
    else afterMarker pat cs

/-- imaplib.ParseFlags: match the FLAGS ( marker, take the characters up
to the next closing parenthesis (the regex requires one to be present)
and split them on whitespace; an envelope without a match yields the
empty tuple. -/
def ParseFlags (resp : List Char) : List (List Char) :=
  match afterMarker ("FLAGS (".toList) resp with
  | none => []
  | some rest =>
    if rest.contains ')' then splitWs (rest.takeWhile (fun c => c != ')')) else []

/-- The text of a fetch envelope for sequence-number text seq, flag atoms
fls and trailing envelope text tail (the INTERNALDATE and BODY items):
seq SP ( FLAGS ( flags ) tail. -/
def mkEnvRaw (seq : List Char) (fls : List (List Char)) (tail : List Char) : List Char :=
  seq ++ (" (FLAGS (".toList) ++ joinSpace fls ++ ')' :: tail

/-- A struct_time as consumed by Time2Internaldate, summarised by the
calendar.timegm value of its civil fields together with tm_gmtoff. -/
structure StructTime where
  fieldsVal : Int
  gmtoff : Int
deriving DecidableEq

/-- An INTERNALDATE date string, summarised by the calendar.timegm value
of its civil fields together with its zone. -/
structure IDateStr where
  fieldsVal : Int
  zone : Int
deriving DecidableEq

/-- The UT instant an INTERNALDATE string denotes. -/
def IDateStr.instant (d : IDateStr) : Int :=
  d.fieldsVal - d.zone

/-- imaplib.Internaldate2tuple: parse the INTERNALDATE of the envelope
and return time.localtime(timegm(tt) - zone), the local struct_time of
its instant; tz is the host's UT offset. -/
def Internaldate2tuple (tz : Int) (d : IDateStr) : StructTime :=
  ⟨d.instant + tz, tz⟩

/-- imaplib.Time2Internaldate on a struct_time carrying tm_gmtoff:
render the civil fields with that offset as the zone. -/
def Time2Internaldate (st : StructTime) : IDateStr :=
  ⟨st.fieldsVal, st.gmtoff⟩

/-- The fetch response envelope data[0][0]: its text (carrying the FLAGS
section) and its INTERNALDATE. -/
structure FetchEnvelope where
  raw : List Char
  idate : IDateStr

def mkFetchEnvelope (seq : List Char) (fls : List (List Char)) (tail : List Char)
    (d : IDateStr) : FetchEnvelope :=
  ⟨mkEnvRaw seq fls tail, d⟩

/-- The flag string the loop passes to append (lines 272-275). -/
def flagStrOf (env : FetchEnvelope) : List Char :=
  joinSpace (ParseFlags env.raw)

/-- The date the loop passes to append (line 277). -/
def dateOf (tz : Int) (env : FetchEnvelope) : IDateStr :=
  Time2Internaldate (Internaldate2tuple tz env.idate)

theorem afterMarker_found (p : Char) (pt pre rest : List Char)
    (hpre : ∀ c ∈ pre, c ≠ p) :
    afterMarker (p :: pt) (pre ++ (p :: pt) ++ rest) = some rest := by
  induction pre with
  | nil =>
    have hpref : (p :: pt).isPrefixOf (p :: (pt ++ rest)) = true := by
      induction pt generalizing p with
      | nil => simp [List.isPrefixOf]
      | cons q qt ih => simp [List.isPrefixOf, ih]
    simp [afterMarker, hpref, List.drop_left]
  | cons c pre2 ih =>
    have hne : (p == c) = false := by
      have hcp := hpre c (by simp)
      exact beq_eq_false_iff_ne.mpr (fun he => hcp he.symm)
    simp only [List.cons_append, afterMarker, List.isPrefixOf, hne, Bool.false_and,
      Bool.false_eq_true, if_false, List.append_eq]
    have h2 := ih (fun x hx => hpre x (by simp [hx]))
    simpa using h2

theorem takeWhile_closeParen (fl rest : List Char) (hfl : ')' ∉ fl) :
    (fl ++ ')' :: rest).takeWhile (fun c => c != ')') = fl := by
  induction fl with
  | nil => simp [List.takeWhile_cons]
  | cons c cs ih =>
    have hc : c ≠ ')' := fun h => hfl (by simp [h])
    have hcb : (c != ')') = true := by simp [hc]
    simp only [List.cons_append, List.takeWhile_cons, hcb, if_true, List.append_eq]
    rw [ih (fun h => hfl (by simp [h]))]

theorem joinSpace_not_mem (c : Char) (fls : List (List Char)) (hc : c ≠ ' ')
    (h : ∀ f ∈ fls, c ∉ f) : c ∉ joinSpace fls := by
  induction fls with
  | nil => simp [joinSpace]
  | cons f rest ih =>
    cases rest with
    | nil =>
      simp only [joinSpace]
      exact h f (by simp)
    | cons g rest2 =>
      simp only [joinSpace, List.mem_append, List.mem_cons]
      intro hmem
      rcases hmem with hmem | hmem | hmem
      · exact h f (by simp) hmem
      · exact hc hmem
      · exact ih (fun x hx => h x (by simp [hx])) hmem

theorem splitWsAux_word (f : List Char) (hf : ' ' ∉ f) (cur s : List Char) :
    splitWsAux cur (f ++ s) = splitWsAux (f.reverse ++ cur) s := by
  induction f generalizing cur with
  | nil => simp
  | cons c cs ih =>
    have hc : c ≠ ' ' := fun h => hf (by simp [h])
    simp only [List.cons_append, splitWsAux, hc, if_false, List.append_eq]
    rw [ih (fun h => hf (by simp [h])) (c :: cur)]
    congr 1
    simp

theorem splitWs_join (fls : List (List Char))
    (h : ∀ f ∈ fls, f ≠ [] ∧ ' ' ∉ f) : splitWs (joinSpace fls) = fls := by
  induction fls with
  | nil => rfl
  | cons f rest ih =>
    obtain ⟨hne, hsp⟩ := h f (by simp)
    cases rest with
    | nil =>
      show splitWsAux [] (joinSpace [f]) = [f]
      have hj : joinSpace [f] = f ++ [] := by simp [joinSpace]
      rw [hj, splitWsAux_word f hsp [] []]
      have hre : f.reverse.isEmpty = false := by
        cases hfr : f.reverse with
        | nil => exact absurd (by simpa using congrArg List.reverse hfr) hne
        | cons a l => rfl
      simp [splitWsAux, hre]
    | cons g rest2 =>
      show splitWsAux [] (joinSpace (f :: g :: rest2)) = f :: g :: rest2
      have hj : joinSpace (f :: g :: rest2) = f ++ ' ' :: joinSpace (g :: rest2) := by
        simp [joinSpace]
      rw [hj, splitWsAux_word f hsp [] (' ' :: joinSpace (g :: rest2))]
      have hre : f.reverse.isEmpty = false := by
        cases hfr : f.reverse with
        | nil => exact absurd (by simpa using congrArg List.reverse hfr) hne
        | cons a l => rfl
      simp only [List.append_nil, splitWsAux, if_true, hre, Bool.false_eq_true, if_false,
        List.reverse_reverse]
      have hih := ih (fun x hx => h x (by simp [hx]))
      rw [splitWs] at hih
      rw [hih]

/-- C7: for every fetch envelope as a server builds it (any sequence
number text free of the letter F, any flag atoms, any trailing envelope
text) the transfer loop hands append exactly the original data: the
parsed flag list equals the fetched flag set, the flag string passed to
append denotes that same flag set, and the date passed to append denotes
exactly the original server-reported INTERNALDATE instant, whatever the
host timezone tz is.  The copy appended to the target therefore carries
the identical flag set and internal timestamp. -/
theorem append_preserves_flags_and_timestamp (seq : List Char) (fls : List (List Char))
    (tail : List Char) (d : IDateStr) (tz : Int)
    (hseq : ∀ c ∈ seq, c ≠ 'F')
    (hfls : ∀ f ∈ fls, f ≠ [] ∧ ' ' ∉ f ∧ ')' ∉ f) :
    ParseFlags (mkFetchEnvelope seq fls tail d).raw = fls ∧
    splitWs (flagStrOf (mkFetchEnvelope seq fls tail d)) = fls ∧
    (dateOf tz (mkFetchEnvelope seq fls tail d)).instant = d.instant := by
  have hparse : ParseFlags (mkFetchEnvelope seq fls tail d).raw = fls := by
    show ParseFlags (mkEnvRaw seq fls tail) = fls
    have hsplit : mkEnvRaw seq fls tail =
        (seq ++ " (".toList) ++ ("FLAGS (".toList) ++ (joinSpace fls ++ ')' :: tail) := by
      simp [mkEnvRaw]
    have hpre : ∀ c ∈ seq ++ " (".toList, c ≠ 'F' := by
      intro c hc
      rcases List.mem_append.mp hc with h2 | h2
      · exact hseq c h2
      · simp at h2
        rcases h2 with rfl | rfl <;> decide
    have hmark : afterMarker ("FLAGS (".toList) (mkEnvRaw seq fls tail) =
        some (joinSpace fls ++ ')' :: tail) := by
      rw [hsplit]
      exact afterMarker_found 'F' ("LAGS (".toList) _ _ hpre
    have hnp : ')' ∉ joinSpace fls :=
      joinSpace_not_mem ')' fls (by decide) (fun f hf => (hfls f hf).2.2)
    have hcon : ((joinSpace fls ++ ')' :: tail).contains ')') = true :=
      List.elem_eq_true_of_mem (by simp)
    rw [ParseFlags, hmark]
    simp only [hcon, if_true]
    rw [takeWhile_closeParen _ _ hnp]
    exact splitWs_join fls (fun f hf => ⟨(hfls f hf).1, (hfls f hf).2.1⟩)
  refine ⟨hparse, ?_, ?_⟩
  · show splitWs (joinSpace (ParseFlags (mkFetchEnvelope seq fls tail d).raw)) = fls
    rw [hparse]
    exact splitWs_join fls (fun f hf => ⟨(hfls f hf).1, (hfls f hf).2.1⟩)
  · show ((d.instant + tz) - tz : Int) = d.instant
    omega

/-- Witness for C7: the envelope of a message with flags Seen and Flagged
parses back to exactly those two flag atoms. -/
theorem append_preserves_flags_and_timestamp_witness :
    ParseFlags (mkFetchEnvelope ("1".toList) [("\\Seen".toList), ("\\Flagged".toList)]
      (" INTERNALDATE".toList) ⟨1704067200, 0⟩).raw =
      [("\\Seen".toList), ("\\Flagged".toList)] :=
  (append_preserves_flags_and_timestamp ("1".toList)
    [("\\Seen".toList), ("\\Flagged".toList)] (" INTERNALDATE".toList) ⟨1704067200, 0⟩
    3600 (by decide) (by decide)).1

end ImapMove
